import Mathlib

/-!
Shallow embedding of the deco developer tooling:
  * `dev.ts` — manifest differ (`arraysEqual`, `manifestChanged`), schema
    collector (`collectComponentsSchemas`, `mapComponentToSchemaMap`) and
    component discoverer (`collectComponents`);
  * the editor form bridge (`useEditorOperations`) — `mapComponentsToFormData`,
    `mapFormDataToComponents`, `handleChangeOrder`, `handleRemoveComponent`,
    `handleAddComponent`, `saveProps`.

JavaScript values that matter for truthiness tests are modelled by `JSValue`;
file paths are modelled as `List Char` so that the substring arithmetic of the
discoverer is explicit; JS array mutation is modelled by pure list operations
acting on an explicit state record.
-/

namespace Deco

/-- A JavaScript value, as far as the tooling inspects one: the `schema`
export of a module is only tested for truthiness and otherwise copied
verbatim.  Reading an absent property yields `undefined`. -/
inductive JSValue where
  | undefined
  | null
  | boolean (b : Bool)
  | number (n : Int)
  | string (s : String)
  | object (fields : List (String × JSValue))

/-- JavaScript truthiness: `undefined`, `null`, `false`, `0` and `""` are
falsy; every object is truthy.  (NaN is not modelled; numbers are integers.) -/
def JSValue.truthy : JSValue → Bool
  | .undefined => false
  | .null => false
  | .boolean b => b
  | .number n => n != 0
  | .string s => s != ""
  | .object _ => true

/-- `SchemaMap` from `dev.ts`: a derived component name paired with the
module's `schema` export. -/
structure SchemaMap where
  component : String
  schema : JSValue

/-- `DevManifest` from `dev.ts`. -/
structure DevManifest where
  routes : List String
  islands : List String
  components : List String
  schemas : List SchemaMap

/-- `arraysEqual` from `dev.ts`: length check, then an index loop comparing
elements with strict equality. -/
def arraysEqual {α : Type} [DecidableEq α] (a b : List α) : Bool :=
  if a.length != b.length then false
  else (List.range a.length).all (fun i => decide (a[i]? = b[i]?))

/-- The `manifestChanged` expression computed by `dev` in `dev.ts`:
routes, islands and components are compared, schemas are not. -/
def manifestChanged (newManifest currentManifest : DevManifest) : Bool :=
  !arraysEqual newManifest.routes currentManifest.routes ||
  !arraysEqual newManifest.islands currentManifest.islands ||
  !arraysEqual newManifest.components currentManifest.components

/-- `dev` runs `generate` exactly under `if (manifestChanged) await generate(...)`. -/
def devGenerateCalled (newManifest currentManifest : DevManifest) : Bool :=
  manifestChanged newManifest currentManifest

/-- A loaded island/component module, as far as `collectComponentsSchemas`
inspects it: only its `schema` export is read (absent export = `undefined`). -/
structure ComponentModule where
  schema : JSValue

/-- `mapComponentToSchemaMap` from `collectComponentsSchemas` in `dev.ts`:
load the module, read its `schema` export, drop the module on a falsy schema
(`if (!schema) return;`), otherwise pair the derived component name with the
schema.  Module loading is the external dynamic `import`; it is passed in as
`load`.  `componentNameFromPath` lives in `utils/component.ts`, outside this
fragment, and is passed in as a parameter. -/
def mapComponentToSchemaMap (load : String → ComponentModule)
    (componentNameFromPath : String → String) (componentName : String) :
    Option SchemaMap :=
  let schema := (load componentName).schema
  if schema.truthy then
    some { component := componentNameFromPath componentName, schema := schema }
  else
    none

/-- `collectComponentsSchemas` from `dev.ts`: islands are enumerated first,
then components whose name is not in the island set; `Promise.all` keeps the
enumeration order, and `filter(Boolean)` drops the modules without a truthy
schema. -/
def collectComponentsSchemas (islands components : List String)
    (loadIsland loadComponent : String → ComponentModule)
    (componentNameFromPath : String → String) : List SchemaMap :=
  let islandComponents := islands
  let componentSchemasPromises :=
    islands.map (mapComponentToSchemaMap loadIsland componentNameFromPath) ++
      (components.filter (fun componentName =>
        !(islandComponents.contains componentName))).map
        (mapComponentToSchemaMap loadComponent componentNameFromPath)
  componentSchemasPromises.filterMap id

/-- The `exts` allow-list passed to `walk` in `collectComponents`
(`["tsx", "jsx", "ts", "js"]`, matched as path suffixes with a dot). -/
def allowedExts : List (List Char) :=
  [".tsx".toList, ".jsx".toList, ".ts".toList, ".js".toList]

/-- One entry yielded by the external `walk` primitive. -/
structure WalkEntry where
  path : List Char
  isFile : Bool
deriving DecidableEq

/-- Extension test performed by `walk`'s `exts` option. -/
def hasAllowedExt (p : List Char) : Bool :=
  allowedExts.any (fun e => e.isSuffixOf p)

/-- Outcome of reading the components directory: the directory is missing
(`Deno.errors.NotFound`), some other filesystem error occurred, or the walk
yielded a list of entries. -/
inductive FsOutcome where
  | notFound
  | fsError (msg : String)
  | entries (list : List WalkEntry)

/-- The comparison used by JavaScript's default `Array.prototype.sort` on
strings: lexicographic by character. -/
def pathLe : List Char → List Char → Bool
  | [], _ => true
  | _ :: _, [] => false
  | a :: as, b :: bs => if a < b then true else if b < a then false else pathLe as bs

/-- `collectComponents` from `dev.ts`: on `NotFound` recover with the empty
list, re-throw any other error, otherwise keep the files with an allowed
extension, strip the components-directory URL from the front of each path
(`href.substring(componentsUrl.href.length)`, here `List.drop baseLen`), and
sort the result.  `baseLen` is the length of the components directory URL. -/
def collectComponents (baseLen : Nat) (fs : FsOutcome) :
    Except String (List (List Char)) :=
  match fs with
  | .notFound => .ok (([] : List (List Char)).mergeSort pathLe)
  | .fsError msg => .error msg
  | .entries list =>
      .ok (((list.filter (fun entry => entry.isFile && hasAllowedExt entry.path)).map
        (fun entry => entry.path.drop baseLen)).mergeSort pathLe)

/-- A property bag (`Record<string, any>`), modelled as an association list. -/
abbrev ComponentProp (V : Type) := List (String × V)

/-- `PageComponentData`: a component identifier plus an optional property bag
(`props?: Record<string, any>`); `none` is the absent/`undefined` case. -/
structure PageComponentData (V : Type) where
  component : String
  props : Option (ComponentProp V)
deriving DecidableEq

/-- `mapComponentsToFormData`: `components.map((c) => c.props || {})`. -/
def mapComponentsToFormData {V : Type} (components : List (PageComponentData V)) :
    List (ComponentProp V) :=
  components.map (fun c => c.props.getD [])

/-- The `currentComponents.forEach((c, index) => ...)` loop of
`mapFormDataToComponents`, with the running index explicit.  `formData[index]`
being `undefined` makes `Object.keys(props)` throw, which is modelled as
`none`. -/
def mapFormDataToComponentsLoop {V : Type} (formData : List (ComponentProp V)) :
    Nat → List (PageComponentData V) → Option (List (PageComponentData V))
  | _, [] => some []
  | index, c :: rest =>
    match formData[index]? with
    | none => none
    | some props =>
        (mapFormDataToComponentsLoop formData (index + 1) rest).map
          (fun tail =>
            { component := c.component,
              props := if props.length = 0 then none else some props } :: tail)

/-- `mapFormDataToComponents` from the editor bridge: rebuild the component
list from the form data, turning an empty property bag into an absent one
(`Object.keys(props).length === 0 ? undefined : props`). -/
def mapFormDataToComponents {V : Type} (formData : List (ComponentProp V))
    (currentComponents : List (PageComponentData V)) :
    Option (List (PageComponentData V)) :=
  mapFormDataToComponentsLoop formData 0 currentComponents

/-- Written from the spec's round-trip sentence, for comparison with the code:
the round trip "reproduces the original list except that an empty property bag
becomes no properties rather than an empty mapping". -/
def specNormalizeComponent {V : Type} (c : PageComponentData V) :
    PageComponentData V :=
  { component := c.component,
    props := match c.props with
             | none => none
             | some [] => none
             | some p => some p }

/-- The state owned by `useEditorOperations`: the reference list
(`componentsRef.current`) and the field-array form values. -/
structure EditorState (V : Type) where
  components : List (PageComponentData V)
  formValues : List (ComponentProp V)
deriving DecidableEq

/-- The direction argument of `handleChangeOrder` (`"prev" | "next"`). -/
inductive OrderDir where
  | prev
  | next
deriving DecidableEq

/-- The in-place swap performed on both lists by `handleChangeOrder`:
`prevComp = l[newPos]; l[newPos] = l[pos]; l[pos] = prevComp`.  Both indices
are in bounds whenever the function is reached with a valid position, which is
all the theorems below use; out-of-bounds reads are mapped to the identity. -/
def jsSwap {α : Type} (l : List α) (pos newPos : Nat) : List α :=
  match l[newPos]?, l[pos]? with
  | some prevComp, some posComp => (l.set newPos posComp).set pos prevComp
  | _, _ => l

/-- `handleChangeOrder`: compute the adjacent target index, return unchanged
when it falls outside `components.length`, otherwise swap both the reference
list and the form values at `pos`/`newPos`. -/
def handleChangeOrder {V : Type} (dir : OrderDir) (pos : Nat)
    (st : EditorState V) : EditorState V :=
  let newPos : Int := match dir with
    | .prev => (pos : Int) - 1
    | .next => (pos : Int) + 1
  if newPos < 0 ∨ (st.components.length : Int) ≤ newPos then st
  else
    { components := jsSwap st.components pos newPos.toNat,
      formValues := jsSwap st.formValues pos newPos.toNat }

/-- The index-based filter of `handleRemoveComponent`:
`filter((_, index) => index !== removedIndex)`, with the running index
explicit. -/
def filterOutIndex {α : Type} (removedIndex : Nat) : Nat → List α → List α
  | _, [] => []
  | index, x :: rest =>
      if index = removedIndex then filterOutIndex removedIndex (index + 1) rest
      else x :: filterOutIndex removedIndex (index + 1) rest

/-- `handleRemoveComponent`: drop the entry at `removedIndex` from the
reference list (by the index filter) and from the form values (the field
array's `remove`). -/
def handleRemoveComponent {V : Type} (removedIndex : Nat) (st : EditorState V) :
    EditorState V :=
  { components := filterOutIndex removedIndex 0 st.components,
    formValues := st.formValues.eraseIdx removedIndex }

/-- `handleAddComponent`: push `{ component: componentName }` (no props) onto
the reference list and `append({})` onto the form values. -/
def handleAddComponent {V : Type} (componentName : String) (st : EditorState V) :
    EditorState V :=
  { components := st.components ++ [{ component := componentName, props := none }],
    formValues := st.formValues ++ [[]] }

/-- How the `fetch` in `saveProps` settles: a response (any status and body),
or a rejection (network failure). -/
inductive FetchResult (ε : Type) where
  | resolved (status : Nat) (body : String)
  | rejected (err : ε)

/-- The JSON body posted by `saveProps`: `{ components, template }`. -/
structure PostBody (V : Type) where
  components : List (PageComponentData V)
  template : String

/-- The body `saveProps` posts to `/live/api/editor`, when the reconcile step
does not throw. -/
def savePropsPostBody {V : Type} (st : EditorState V) (template : String) :
    Option (PostBody V) :=
  (mapFormDataToComponents st.formValues st.components).map
    (fun components => { components := components, template := template })

/-- Whether `saveProps` reaches `reloadPage()`: the reconcile step must not
throw, and `await fetch(...)` must resolve — a rejected fetch propagates out
of `saveProps` before the reload line. -/
def savePropsReloads {V ε : Type} (st : EditorState V) (_template : String)
    (result : FetchResult ε) : Bool :=
  match mapFormDataToComponents st.formValues st.components with
  | none => false
  | some _ =>
      match result with
      | .resolved _ _ => true
      | .rejected _ => false

/-- The editor state after `saveProps`: the function reads
`componentsRef.current` and the form values but writes neither. -/
def savePropsState {V ε : Type} (st : EditorState V) (_template : String)
    (_result : FetchResult ε) : EditorState V :=
  st

/-- The joint invariant of the editor bridge: the form-values list and the
reference list have the same length. -/
def editorInvariant {V : Type} (st : EditorState V) : Prop :=
  st.formValues.length = st.components.length

/-- The effect of `handleChangeOrder` on the index-aligned pairing of the two
lists: the same guard, and the same swap applied to the zipped list. -/
def changeOrderOnZip {α : Type} (dir : OrderDir) (pos : Nat) (l : List α) :
    List α :=
  let newPos : Int := match dir with
    | .prev => (pos : Int) - 1
    | .next => (pos : Int) + 1
  if newPos < 0 ∨ (l.length : Int) ≤ newPos then l
  else jsSwap l pos newPos.toNat

/-! ### Helper lemmas -/

theorem arraysEqual_eq_true_iff {α : Type} [DecidableEq α] (a b : List α) :
    arraysEqual a b = true ↔ a = b := by
  unfold arraysEqual
  by_cases hl : a.length = b.length
  · rw [if_neg (by simp [hl])]
    rw [List.all_eq_true]
    constructor
    · intro h
      apply List.ext_getElem?
      intro n
      by_cases hn : n < a.length
      · simpa using h n (List.mem_range.mpr hn)
      · rw [List.getElem?_eq_none (by omega), List.getElem?_eq_none (by omega)]
    · intro h i _
      subst h
      simp
  · rw [if_pos (by simpa using hl)]
    simp only [Bool.false_eq_true, false_iff]
    exact fun hab => hl (congrArg List.length hab)

theorem arraysEqual_eq_false_iff {α : Type} [DecidableEq α] (a b : List α) :
    arraysEqual a b = false ↔ a ≠ b := by
  rw [Bool.eq_false_iff]
  exact not_congr (arraysEqual_eq_true_iff a b)

/-! ### Claim theorems -/

/-- Claim C1: the differ reports changed iff the routes, islands or components
lists differ (in length, order or element values); schema lists never matter;
and `dev` calls the generator exactly when the differ reports changed. -/
theorem claim1_manifestChanged_iff (A B : DevManifest) :
    (manifestChanged A B = true ↔
      (A.routes ≠ B.routes ∨ A.islands ≠ B.islands ∨ A.components ≠ B.components)) ∧
    (∀ s1 s2 : List SchemaMap,
      manifestChanged { A with schemas := s1 } { B with schemas := s2 } =
        manifestChanged A B) ∧
    devGenerateCalled A B = manifestChanged A B := by
  refine ⟨?_, fun s1 s2 => rfl, rfl⟩
  unfold manifestChanged
  simp [arraysEqual_eq_false_iff, or_assoc]

/-- Witness for C1 at a concrete pair of manifests. -/
theorem claim1_manifestChanged_iff_witness :
    manifestChanged
        { routes := ["/x"], islands := [], components := [], schemas := [] }
        { routes := [], islands := [], components := [], schemas := [] } = true :=
  (claim1_manifestChanged_iff _ _).1.mpr (Or.inl (by simp))

/-- Claim C7: a missing components directory yields the empty list and no
error; any other filesystem error propagates to the caller. -/
theorem claim7_collectComponents_missing_dir (baseLen : Nat) :
    collectComponents baseLen .notFound = .ok [] ∧
    ∀ msg, collectComponents baseLen (.fsError msg) = .error msg := by
  constructor
  · unfold collectComponents
    rw [List.mergeSort_nil]
  · intro msg
    rfl

/-- Claim C5: the schema collector's result is the island entries in island
enumeration order followed by the component entries in component enumeration
order; a name present in both lists is never enumerated as a component (so
the component loader's value there is irrelevant and the name contributes
only via its island module); and a module without a truthy schema export
contributes no entry. -/
theorem claim5_collectComponentsSchemas_spec (islands components : List String)
    (loadIsland loadComponent : String → ComponentModule)
    (componentNameFromPath : String → String) :
    (collectComponentsSchemas islands components loadIsland loadComponent
        componentNameFromPath
      = islands.filterMap (mapComponentToSchemaMap loadIsland componentNameFromPath)
        ++ (components.filter (fun n => !(islands.contains n))).filterMap
            (mapComponentToSchemaMap loadComponent componentNameFromPath)) ∧
    (∀ loadComponent2 : String → ComponentModule,
      (∀ n, n ∉ islands → loadComponent2 n = loadComponent n) →
      collectComponentsSchemas islands components loadIsland loadComponent2
          componentNameFromPath
        = collectComponentsSchemas islands components loadIsland loadComponent
            componentNameFromPath) ∧
    (∀ n ∈ islands,
      (components.filter (fun m => !(islands.contains m))).contains n = false) ∧
    (∀ (load : String → ComponentModule) (n : String),
      (load n).schema.truthy = false →
      mapComponentToSchemaMap load componentNameFromPath n = none) := by
  refine ⟨?_, ?_, ?_, ?_⟩
  · unfold collectComponentsSchemas
    simp [List.filterMap_map]
  · intro loadComponent2 hagree
    have hmap : (components.filter (fun m => !(islands.contains m))).map
          (mapComponentToSchemaMap loadComponent2 componentNameFromPath)
        = (components.filter (fun m => !(islands.contains m))).map
          (mapComponentToSchemaMap loadComponent componentNameFromPath) := by
      apply List.map_congr_left
      intro m hm
      have hnotmem : m ∉ islands := by
        have hfm := (List.mem_filter.mp hm).2
        simpa using hfm
      unfold mapComponentToSchemaMap
      rw [hagree m hnotmem]
    simp only [collectComponentsSchemas]
    rw [hmap]
  · intro n hn
    rw [Bool.eq_false_iff]
    intro hcon
    have hmemf : n ∈ components.filter (fun m => !(islands.contains m)) := by
      simpa using hcon
    have hfm := (List.mem_filter.mp hmemf).2
    simp at hfm
    exact hfm hn
  · intro load n h
    unfold mapComponentToSchemaMap
    simp [h]

/-- Witness for C5: the component loader's value at a name that is also an
island does not influence the result. -/
theorem claim5_collectComponentsSchemas_spec_witness :
    collectComponentsSchemas ["A.tsx"] ["A.tsx", "B.tsx"]
        (fun _ => { schema := JSValue.object [] })
        (fun n => if n = "A.tsx" then { schema := JSValue.null }
                  else { schema := JSValue.object [] }) id
      = collectComponentsSchemas ["A.tsx"] ["A.tsx", "B.tsx"]
        (fun _ => { schema := JSValue.object [] })
        (fun _ => { schema := JSValue.object [] }) id :=
  (claim5_collectComponentsSchemas_spec ["A.tsx"] ["A.tsx", "B.tsx"]
      (fun _ => { schema := JSValue.object [] })
      (fun _ => { schema := JSValue.object [] }) id).2.1
    (fun n => if n = "A.tsx" then { schema := JSValue.null }
              else { schema := JSValue.object [] })
    (by
      intro n hn
      simp only [List.mem_singleton] at hn
      simp [hn])

/-- Claim C10: a loaded module contributes an entry iff its schema export is
truthy; a falsy export is dropped exactly as if the export were absent
(`undefined`); and `false`, `0`, `""`, `null` and `undefined` are all falsy. -/
theorem claim10_schema_truthiness (load : String → ComponentModule)
    (componentNameFromPath : String → String) (n : String) :
    ((mapComponentToSchemaMap load componentNameFromPath n).isSome
        = (load n).schema.truthy) ∧
    ((load n).schema.truthy = false →
      mapComponentToSchemaMap load componentNameFromPath n
        = mapComponentToSchemaMap (fun _ => { schema := JSValue.undefined })
            componentNameFromPath n) ∧
    (collectComponentsSchemas [n] [] load load componentNameFromPath
        = if (load n).schema.truthy
          then [{ component := componentNameFromPath n, schema := (load n).schema }]
          else []) ∧
    (JSValue.truthy (.boolean false) = false ∧ JSValue.truthy (.number 0) = false ∧
      JSValue.truthy (.string "") = false ∧ JSValue.truthy .null = false ∧
      JSValue.truthy .undefined = false) := by
  refine ⟨?_, ?_, ?_, by decide⟩
  · unfold mapComponentToSchemaMap
    by_cases h : (load n).schema.truthy <;> simp [h]
  · intro h
    simp only [mapComponentToSchemaMap]
    rw [h]
    simp [JSValue.truthy]
  · by_cases h : (load n).schema.truthy <;>
      simp [collectComponentsSchemas, mapComponentToSchemaMap, h]

/-- Witness for C10 at a falsy (`0`) schema export: no entry is produced. -/
theorem claim10_schema_truthiness_witness :
    collectComponentsSchemas ["Foo.tsx"] []
        (fun _ => { schema := JSValue.number 0 })
        (fun _ => { schema := JSValue.number 0 }) id = [] := by
  have h := (claim10_schema_truthiness
    (fun _ => { schema := JSValue.number 0 }) id "Foo.tsx").2.2.1
  simpa using h

theorem pathLe_total : ∀ a b : List Char, (pathLe a b || pathLe b a) = true := by
  intro a
  induction a with
  | nil => intro b; simp [pathLe]
  | cons x xs ih =>
    intro b
    cases b with
    | nil => simp [pathLe]
    | cons y ys =>
      unfold pathLe
      rcases lt_trichotomy x y with h | h | h
      · simp [h]
      · subst h
        simpa [lt_irrefl] using ih ys
      · have h2 : ¬ x < y := lt_asymm h
        simp [h, h2]

theorem pathLe_trans : ∀ a b c : List Char,
    pathLe a b = true → pathLe b c = true → pathLe a c = true := by
  intro a
  induction a with
  | nil => intro b c _ _; rfl
  | cons x xs ih =>
    intro b c hab hbc
    cases b with
    | nil => simp [pathLe] at hab
    | cons y ys =>
      cases c with
      | nil => simp [pathLe] at hbc
      | cons z zs =>
        unfold pathLe at hab hbc ⊢
        rcases lt_trichotomy x y with hxy | hxy | hxy
        · rcases lt_trichotomy y z with hyz | hyz | hyz
          · simp [lt_trans hxy hyz]
          · subst hyz
            simp [hxy]
          · rw [if_neg (lt_asymm hyz), if_pos hyz] at hbc
            simp at hbc
        · subst hxy
          rcases lt_trichotomy x z with hyz | hyz | hyz
          · simp [hyz]
          · subst hyz
            rw [if_neg (lt_irrefl x), if_neg (lt_irrefl x)] at hab hbc ⊢
            exact ih ys zs hab hbc
          · rw [if_neg (lt_asymm hyz), if_pos hyz] at hbc
            simp at hbc
        · rw [if_neg (lt_asymm hxy), if_pos hxy] at hab
          simp at hab

/-- Claim C6: on an existing directory the discoverer returns a sorted,
duplicate-free list; every element comes from a file entry with one of the
four allowed extensions, relativized by dropping the directory-URL front. -/
theorem claim6_collectComponents_sorted_nodup (baseLen : Nat)
    (basePath : List Char) (entries : List WalkEntry)
    (hpre : ∀ e ∈ entries, e.path.take baseLen = basePath)
    (hnd : (entries.map WalkEntry.path).Nodup) :
    ∃ out, collectComponents baseLen (.entries entries) = .ok out ∧
      out.Pairwise (fun a b => pathLe a b = true) ∧
      out.Nodup ∧
      (∀ s ∈ out, ∃ e ∈ entries, e.isFile = true ∧ hasAllowedExt e.path = true ∧
        s = e.path.drop baseLen) := by
  refine ⟨_, rfl, ?_, ?_, ?_⟩
  · exact List.sorted_mergeSort pathLe_trans pathLe_total _
  · refine (List.mergeSort_perm _ pathLe).symm.nodup ?_
    have hinj := List.inj_on_of_nodup_map hnd
    refine List.Nodup.map_on ?_
      (((List.Nodup.of_map WalkEntry.path hnd)).filter _)
    intro x hx y hy hdrop
    have hx' := List.mem_of_mem_filter hx
    have hy' := List.mem_of_mem_filter hy
    have hxp : x.path = basePath ++ x.path.drop baseLen := by
      conv_lhs => rw [← List.take_append_drop baseLen x.path]
      rw [hpre x hx']
    have hyp : y.path = basePath ++ y.path.drop baseLen := by
      conv_lhs => rw [← List.take_append_drop baseLen y.path]
      rw [hpre y hy']
    exact hinj hx' hy' (by rw [hxp, hyp, hdrop])
  · intro s hs
    have hs' := ((List.mergeSort_perm _ pathLe).mem_iff).mp hs
    rw [List.mem_map] at hs'
    obtain ⟨e, he, hse⟩ := hs'
    rw [List.mem_filter] at he
    obtain ⟨heE, hef⟩ := he
    rw [Bool.and_eq_true] at hef
    exact ⟨e, heE, hef.1, hef.2, hse.symm⟩

/-- Witness for C6: two concrete files are returned sorted. -/
theorem claim6_collectComponents_sorted_nodup_witness :
    ∃ out, collectComponents 0 (.entries
        [{ path := "/b.tsx".toList, isFile := true },
         { path := "/a.tsx".toList, isFile := true }]) = .ok out ∧
      out.Pairwise (fun a b => pathLe a b = true) ∧
      out.Nodup ∧
      (∀ s ∈ out, ∃ e ∈
          [({ path := "/b.tsx".toList, isFile := true } : WalkEntry),
           { path := "/a.tsx".toList, isFile := true }],
        e.isFile = true ∧ hasAllowedExt e.path = true ∧ s = e.path.drop 0) :=
  claim6_collectComponents_sorted_nodup 0 []
    [{ path := "/b.tsx".toList, isFile := true },
     { path := "/a.tsx".toList, isFile := true }]
    (by decide) (by decide)

theorem specNormalizeComponent_eq_loop_head {V : Type} (c : PageComponentData V) :
    ({ component := c.component,
       props := if (c.props.getD []).length = 0 then none
                else some (c.props.getD []) } : PageComponentData V)
      = specNormalizeComponent c := by
  unfold specNormalizeComponent
  cases hp : c.props with
  | none => simp
  | some p =>
    cases p with
    | nil => simp
    | cons q qs => simp

theorem mapFormDataToComponentsLoop_roundTrip {V : Type}
    (cs : List (PageComponentData V)) :
    ∀ pre : List (ComponentProp V),
      mapFormDataToComponentsLoop (pre ++ mapComponentsToFormData cs) pre.length cs
        = some (cs.map specNormalizeComponent) := by
  induction cs with
  | nil => intro pre; rfl
  | cons c rest ih =>
    intro pre
    have hget : (pre ++ mapComponentsToFormData (c :: rest))[pre.length]?
        = some (c.props.getD []) := by
      rw [List.getElem?_append_right (le_refl _)]
      simp [mapComponentsToFormData]
    have hassoc : pre ++ mapComponentsToFormData (c :: rest)
        = (pre ++ [c.props.getD []]) ++ mapComponentsToFormData rest := by
      simp [mapComponentsToFormData]
    have hlen2 : pre.length + 1 = (pre ++ [c.props.getD []]).length := by simp
    unfold mapFormDataToComponentsLoop
    rw [hget]
    rw [hassoc, hlen2, ih (pre ++ [c.props.getD []])]
    simp [specNormalizeComponent_eq_loop_head c]

/-- Claim C2: mapping a component list to form data and back (with the same
list as current components) reproduces the list up to turning absent-or-empty
property bags into absent ones; the result never holds an empty bag, and
entries with a nonempty bag come back unchanged. -/
theorem claim2_roundTrip {V : Type} (cs : List (PageComponentData V)) :
    mapFormDataToComponents (mapComponentsToFormData cs) cs
      = some (cs.map specNormalizeComponent) ∧
    (∀ c ∈ cs.map specNormalizeComponent, c.props ≠ some []) ∧
    (∀ c : PageComponentData V, c.props = none ∨ c.props = some [] →
      specNormalizeComponent c = { component := c.component, props := none }) ∧
    (∀ (c : PageComponentData V) (p : ComponentProp V), c.props = some p → p ≠ [] →
      specNormalizeComponent c = c) := by
  refine ⟨?_, ?_, ?_, ?_⟩
  · exact mapFormDataToComponentsLoop_roundTrip cs []
  · intro c hc
    rw [List.mem_map] at hc
    obtain ⟨a, _, rfl⟩ := hc
    unfold specNormalizeComponent
    cases hp : a.props with
    | none => simp
    | some p => cases p <;> simp
  · rintro c (hp | hp) <;> unfold specNormalizeComponent <;> rw [hp]
  · intro c p hp hne
    cases c with
    | mk comp props =>
      simp only at hp
      subst hp
      cases p with
      | nil => exact absurd rfl hne
      | cons q qs => rfl

/-- Witness for C2 at a concrete three-entry list: nonempty props survive,
absent and empty props both come back absent. -/
theorem claim2_roundTrip_witness :
    mapFormDataToComponents
        (mapComponentsToFormData
          [({ component := "Hero", props := some [("title", 1)] } : PageComponentData Nat),
           { component := "Footer", props := none },
           { component := "Empty", props := some [] }])
        [{ component := "Hero", props := some [("title", 1)] },
         { component := "Footer", props := none },
         { component := "Empty", props := some [] }]
      = some [{ component := "Hero", props := some [("title", 1)] },
              { component := "Footer", props := none },
              { component := "Empty", props := none }] := by
  have h := (claim2_roundTrip
    [({ component := "Hero", props := some [("title", 1)] } : PageComponentData Nat),
     { component := "Footer", props := none },
     { component := "Empty", props := some [] }]).1
  simpa [specNormalizeComponent] using h

theorem jsSwap_of_some {α : Type} {l : List α} {pos newPos : Nat} {a b : α}
    (h1 : l[newPos]? = some a) (h2 : l[pos]? = some b) :
    jsSwap l pos newPos = (l.set newPos b).set pos a := by
  unfold jsSwap
  rw [h1, h2]

theorem jsSwap_eq_self_of_newPos_ge {α : Type} {l : List α} {pos newPos : Nat}
    (h : l.length ≤ newPos) : jsSwap l pos newPos = l := by
  unfold jsSwap
  rw [List.getElem?_eq_none h]

theorem jsSwap_eq_self_of_pos_ge {α : Type} {l : List α} {pos newPos : Nat}
    (h : l.length ≤ pos) : jsSwap l pos newPos = l := by
  unfold jsSwap
  rw [List.getElem?_eq_none h]
  cases l[newPos]? <;> rfl

theorem length_jsSwap {α : Type} (l : List α) (pos newPos : Nat) :
    (jsSwap l pos newPos).length = l.length := by
  unfold jsSwap
  split
  · simp
  · rfl

theorem jsSwap_jsSwap {α : Type} {l : List α} {pos newPos : Nat}
    (hpos : pos < l.length) (hnew : newPos < l.length) (hne : pos ≠ newPos) :
    jsSwap (jsSwap l pos newPos) pos newPos = l := by
  obtain ⟨a, ha⟩ : ∃ a, l[newPos]? = some a := ⟨_, List.getElem?_eq_getElem hnew⟩
  obtain ⟨b, hb⟩ : ∃ b, l[pos]? = some b := ⟨_, List.getElem?_eq_getElem hpos⟩
  rw [jsSwap_of_some ha hb]
  have hma : ((l.set newPos b).set pos a)[newPos]? = some b := by
    simp [List.getElem?_set, List.length_set, hne, hnew]
  have hmb : ((l.set newPos b).set pos a)[pos]? = some a := by
    simp [List.getElem?_set, List.length_set, hpos]
  rw [jsSwap_of_some hma hmb]
  apply List.ext_getElem?
  intro n
  simp only [List.getElem?_set, List.length_set]
  by_cases h1 : pos = n
  · subst h1
    simp [hpos, hb]
  · by_cases h2 : newPos = n
    · subst h2
      simp [h1, hnew, ha]
    · simp [h1, h2]

theorem jsSwap_jsSwap_total {α : Type} (l : List α) {pos newPos : Nat}
    (hne : pos ≠ newPos) :
    jsSwap (jsSwap l pos newPos) pos newPos = l := by
  by_cases hpos : pos < l.length
  · by_cases hnew : newPos < l.length
    · exact jsSwap_jsSwap hpos hnew hne
    · have e : jsSwap l pos newPos = l := jsSwap_eq_self_of_newPos_ge (by omega)
      rw [e, e]
  · have e : jsSwap l pos newPos = l := jsSwap_eq_self_of_pos_ge (by omega)
    rw [e, e]

theorem zip_jsSwap {α β : Type} {a : List α} {b : List β}
    (h : a.length = b.length) (pos newPos : Nat) :
    (jsSwap a pos newPos).zip (jsSwap b pos newPos) = jsSwap (a.zip b) pos newPos := by
  have hzlen : (a.zip b).length = a.length := by
    simp [List.length_zip, h]
  by_cases hnew : newPos < a.length
  · by_cases hpos : pos < a.length
    · obtain ⟨x, hx⟩ : ∃ x, a[newPos]? = some x := ⟨_, List.getElem?_eq_getElem hnew⟩
      obtain ⟨y, hy⟩ : ∃ y, a[pos]? = some y := ⟨_, List.getElem?_eq_getElem hpos⟩
      obtain ⟨u, hu⟩ : ∃ u, b[newPos]? = some u :=
        ⟨_, List.getElem?_eq_getElem (by omega)⟩
      obtain ⟨v, hv⟩ : ∃ v, b[pos]? = some v :=
        ⟨_, List.getElem?_eq_getElem (by omega)⟩
      have hz1 : (a.zip b)[newPos]? = some (x, u) := by
        simp [List.zip_eq_zipWith, List.getElem?_zipWith, hx, hu]
      have hz2 : (a.zip b)[pos]? = some (y, v) := by
        simp [List.zip_eq_zipWith, List.getElem?_zipWith, hy, hv]
      rw [jsSwap_of_some hx hy, jsSwap_of_some hu hv, jsSwap_of_some hz1 hz2]
      apply List.ext_getElem?
      intro n
      by_cases h1 : pos = n
      · subst h1
        simp [List.zip_eq_zipWith, List.getElem?_zipWith, List.getElem?_set,
          List.length_set, hpos, hzlen, show pos < b.length by omega]
      · by_cases h2 : newPos = n
        · subst h2
          simp [List.zip_eq_zipWith, List.getElem?_zipWith, List.getElem?_set,
            List.length_set, h1, hnew, hzlen, show newPos < b.length by omega]
        · simp [List.zip_eq_zipWith, List.getElem?_zipWith, List.getElem?_set,
            List.length_set, h1, h2]
    · rw [jsSwap_eq_self_of_pos_ge (by omega),
        jsSwap_eq_self_of_pos_ge (show b.length ≤ pos by omega),
        jsSwap_eq_self_of_pos_ge (show (a.zip b).length ≤ pos by omega)]
  · rw [jsSwap_eq_self_of_newPos_ge (by omega),
      jsSwap_eq_self_of_newPos_ge (show b.length ≤ newPos by omega),
      jsSwap_eq_self_of_newPos_ge (show (a.zip b).length ≤ newPos by omega)]

theorem zip_eraseIdx {α β : Type} :
    ∀ (a : List α) (b : List β) (i : Nat),
      (a.eraseIdx i).zip (b.eraseIdx i) = (a.zip b).eraseIdx i := by
  intro a
  induction a with
  | nil => intro b i; simp
  | cons x xs ih =>
    intro b i
    cases b with
    | nil => simp [List.zip_nil_right]
    | cons u bs =>
      cases i with
      | zero => rfl
      | succ j =>
        show ((x :: xs.eraseIdx j).zip (u :: bs.eraseIdx j)) = _
        rw [List.zip_cons_cons, List.zip_cons_cons, List.eraseIdx_cons_succ,
          ih bs j]

theorem filterOutIndex_go {α : Type} (removedIndex : Nat) :
    ∀ (l : List α) (k : Nat),
      filterOutIndex removedIndex k l =
        if removedIndex < k then l else l.eraseIdx (removedIndex - k) := by
  intro l
  induction l with
  | nil => intro k; simp [filterOutIndex]
  | cons x rest ih =>
    intro k
    unfold filterOutIndex
    by_cases hk : k = removedIndex
    · subst hk
      rw [if_pos rfl, ih (k + 1), if_pos (by omega), if_neg (by omega)]
      simp
    · rw [if_neg hk, ih (k + 1)]
      by_cases hlt : removedIndex < k
      · rw [if_pos (by omega), if_pos hlt]
      · rw [if_neg (by omega), if_neg hlt]
        have hsub : removedIndex - k = (removedIndex - (k + 1)) + 1 := by omega
        rw [hsub, List.eraseIdx_cons_succ]

theorem filterOutIndex_eq_eraseIdx {α : Type} (removedIndex : Nat) (l : List α) :
    filterOutIndex removedIndex 0 l = l.eraseIdx removedIndex := by
  rw [filterOutIndex_go]
  simp

theorem eraseIdx_append_length {α : Type} (l : List α) (x : α) :
    (l ++ [x]).eraseIdx l.length = l := by
  induction l with
  | nil => rfl
  | cons y ys ih => simp [List.eraseIdx_cons_succ, ih]

/-- Claim C3: the reference list and the form-values list stay the same
length, and each operation acts on the index-aligned pairing of the two
lists in lockstep: reorder applies the same guarded swap, remove erases the
same index, add appends one matched pair, and save leaves the state alone. -/
theorem claim3_editor_invariant {V : Type} (st : EditorState V)
    (h : editorInvariant st) :
    (∀ (dir : OrderDir) (pos : Nat), pos < st.components.length →
      editorInvariant (handleChangeOrder dir pos st) ∧
      (handleChangeOrder dir pos st).components.zip
          (handleChangeOrder dir pos st).formValues
        = changeOrderOnZip dir pos (st.components.zip st.formValues)) ∧
    (∀ removedIndex : Nat,
      editorInvariant (handleRemoveComponent removedIndex st) ∧
      (handleRemoveComponent removedIndex st).components.zip
          (handleRemoveComponent removedIndex st).formValues
        = (st.components.zip st.formValues).eraseIdx removedIndex) ∧
    (∀ componentName : String,
      editorInvariant (handleAddComponent componentName st) ∧
      (handleAddComponent componentName st).components.zip
          (handleAddComponent componentName st).formValues
        = st.components.zip st.formValues ++
            [({ component := componentName, props := none }, [])]) ∧
    (∀ (ε : Type) (template : String) (result : FetchResult ε),
      editorInvariant (savePropsState st template result)) := by
  have hfl : st.formValues.length = st.components.length := h
  have hzl : (st.components.zip st.formValues).length = st.components.length := by
    simp [List.length_zip, hfl]
  refine ⟨?_, ?_, ?_, fun ε template result => h⟩
  · intro dir pos _hpos
    cases dir with
    | prev =>
      simp only [handleChangeOrder, changeOrderOnZip]
      rw [hzl]
      by_cases hg : ((pos : Int) - 1 < 0 ∨
          (st.components.length : Int) ≤ (pos : Int) - 1)
      · rw [if_pos hg, if_pos hg]
        exact ⟨h, rfl⟩
      · rw [if_neg hg, if_neg hg]
        constructor
        · show (jsSwap st.formValues _ _).length = (jsSwap st.components _ _).length
          rw [length_jsSwap, length_jsSwap, hfl]
        · exact zip_jsSwap hfl.symm pos ((pos : Int) - 1).toNat
    | next =>
      simp only [handleChangeOrder, changeOrderOnZip]
      rw [hzl]
      by_cases hg : ((pos : Int) + 1 < 0 ∨
          (st.components.length : Int) ≤ (pos : Int) + 1)
      · rw [if_pos hg, if_pos hg]
        exact ⟨h, rfl⟩
      · rw [if_neg hg, if_neg hg]
        constructor
        · show (jsSwap st.formValues _ _).length = (jsSwap st.components _ _).length
          rw [length_jsSwap, length_jsSwap, hfl]
        · exact zip_jsSwap hfl.symm pos ((pos : Int) + 1).toNat
  · intro removedIndex
    constructor
    · show (st.formValues.eraseIdx removedIndex).length
        = (filterOutIndex removedIndex 0 st.components).length
      rw [filterOutIndex_eq_eraseIdx, List.length_eraseIdx, List.length_eraseIdx, hfl]
    · show (filterOutIndex removedIndex 0 st.components).zip
          (st.formValues.eraseIdx removedIndex) = _
      rw [filterOutIndex_eq_eraseIdx]
      exact zip_eraseIdx _ _ _
  · intro componentName
    constructor
    · simp only [editorInvariant, handleAddComponent]
      simp [hfl]
    · simp only [handleAddComponent]
      rw [List.zip_append hfl.symm]
      rfl

/-- Witness for C3 at a concrete one-entry state. -/
theorem claim3_editor_invariant_witness :
    editorInvariant
      ({ components := [{ component := "Hero", props := some [("t", 1)] }],
         formValues := [[("t", 1)]] } : EditorState Nat) ∧
    editorInvariant (handleAddComponent "New"
      ({ components := [{ component := "Hero", props := some [("t", 1)] }],
         formValues := [[("t", 1)]] } : EditorState Nat)) :=
  ⟨rfl, ((claim3_editor_invariant
      ({ components := [{ component := "Hero", props := some [("t", 1)] }],
         formValues := [[("t", 1)]] } : EditorState Nat) rfl).2.2.1 "New").1⟩

theorem handleChangeOrder_prev_eq {V : Type} (pos : Nat) (st : EditorState V)
    (h1 : 1 ≤ pos) (h2 : pos - 1 < st.components.length) :
    handleChangeOrder OrderDir.prev pos st =
      { components := jsSwap st.components pos (pos - 1),
        formValues := jsSwap st.formValues pos (pos - 1) } := by
  have hguard : ¬ ((pos : Int) - 1 < 0 ∨
      (st.components.length : Int) ≤ (pos : Int) - 1) := by
    rintro (hg | hg) <;> omega
  have htn : ((pos : Int) - 1).toNat = pos - 1 := by omega
  simp only [handleChangeOrder]
  rw [if_neg hguard, htn]

theorem handleChangeOrder_next_eq {V : Type} (pos : Nat) (st : EditorState V)
    (h2 : pos + 1 < st.components.length) :
    handleChangeOrder OrderDir.next pos st =
      { components := jsSwap st.components pos (pos + 1),
        formValues := jsSwap st.formValues pos (pos + 1) } := by
  have hguard : ¬ ((pos : Int) + 1 < 0 ∨
      (st.components.length : Int) ≤ (pos : Int) + 1) := by
    rintro (hg | hg) <;> omega
  have htn : ((pos : Int) + 1).toNat = pos + 1 := by omega
  simp only [handleChangeOrder]
  rw [if_neg hguard, htn]

/-- Claim C8: for a position in the list whose adjacent target is also in the
list, applying the reorder operation twice with the same direction and
position restores the state (both the reference list and the form values). -/
theorem claim8_handleChangeOrder_involutive {V : Type} (st : EditorState V)
    (dir : OrderDir) (pos : Nat) (hpos : pos < st.components.length)
    (hprev : dir = OrderDir.prev → 1 ≤ pos)
    (hnext : dir = OrderDir.next → pos + 1 < st.components.length) :
    handleChangeOrder dir pos (handleChangeOrder dir pos st) = st := by
  cases dir with
  | prev =>
    have h1 := hprev rfl
    have h2 : pos - 1 < st.components.length := by omega
    rw [handleChangeOrder_prev_eq pos st h1 h2]
    rw [handleChangeOrder_prev_eq pos _ h1 (by simpa [length_jsSwap] using h2)]
    rw [jsSwap_jsSwap_total st.components (by omega),
      jsSwap_jsSwap_total st.formValues (by omega)]
  | next =>
    have h2 := hnext rfl
    rw [handleChangeOrder_next_eq pos st h2]
    rw [handleChangeOrder_next_eq pos _ (by simpa [length_jsSwap] using h2)]
    rw [jsSwap_jsSwap_total st.components (by omega),
      jsSwap_jsSwap_total st.formValues (by omega)]

/-- Witness for C8 at a concrete two-entry state. -/
theorem claim8_handleChangeOrder_involutive_witness :
    handleChangeOrder OrderDir.next 0 (handleChangeOrder OrderDir.next 0
      ({ components := [{ component := "A", props := none }, { component := "B", props := none }],
         formValues := [[], []] } : EditorState Nat))
      = { components := [{ component := "A", props := none }, { component := "B", props := none }],
          formValues := [[], []] } :=
  claim8_handleChangeOrder_involutive _ OrderDir.next 0 (by decide)
    (fun hcon => absurd hcon (by decide)) (fun _ => by decide)

/-- Claim C9: adding a component and immediately removing it at the index of
the appended entry restores the previous state. -/
theorem claim9_add_remove {V : Type} (st : EditorState V) (componentName : String)
    (h : editorInvariant st) :
    handleRemoveComponent st.components.length
        (handleAddComponent componentName st) = st := by
  have hf : st.formValues.length = st.components.length := h
  unfold handleAddComponent handleRemoveComponent
  simp only [filterOutIndex_eq_eraseIdx]
  rw [eraseIdx_append_length, ← hf, eraseIdx_append_length]

/-- Witness for C9 at a concrete one-entry state. -/
theorem claim9_add_remove_witness :
    handleRemoveComponent 1 (handleAddComponent "X"
      ({ components := [{ component := "Hero", props := none }],
         formValues := [[]] } : EditorState Nat))
      = { components := [{ component := "Hero", props := none }],
          formValues := [[]] } :=
  claim9_add_remove
    { components := [{ component := "Hero", props := none }], formValues := [[]] }
    "X" rfl

/-- Claim C4 fails on the code: at a concrete state whose POST is issued, a
rejected fetch does not reach the reload — `await fetch(...)` re-throws and
`reloadPage()` on the next line is skipped. -/
theorem claim4_saveProps_counterexample :
    (savePropsPostBody ({ components := [], formValues := [] } : EditorState Nat)
        "tpl").isSome = true ∧
    savePropsReloads ({ components := [], formValues := [] } : EditorState Nat)
        "tpl" (FetchResult.rejected ()) = false :=
  ⟨rfl, rfl⟩

/-- Claim C4, amended: once the POST is issued, the reload is forced exactly
when the fetch resolves — for every response status and body — and never when
the fetch rejects. -/
theorem claim4_saveProps_reload {V ε : Type} (st : EditorState V)
    (template : String) (h : (savePropsPostBody st template).isSome = true) :
    (∀ (status : Nat) (body : String),
      savePropsReloads st template (FetchResult.resolved (ε := ε) status body)
        = true) ∧
    (∀ err : ε, savePropsReloads st template (FetchResult.rejected err) = false) := by
  obtain ⟨comps, hc⟩ : ∃ comps,
      mapFormDataToComponents st.formValues st.components = some comps := by
    unfold savePropsPostBody at h
    cases hm : mapFormDataToComponents st.formValues st.components with
    | none => rw [hm] at h; simp at h
    | some l => exact ⟨l, rfl⟩
  constructor
  · intro status body
    unfold savePropsReloads
    rw [hc]
  · intro err
    unfold savePropsReloads
    rw [hc]

/-- Witness for the amended C4: a resolved fetch with a failure status still
reloads. -/
theorem claim4_saveProps_reload_witness :
    savePropsReloads ({ components := [], formValues := [] } : EditorState Nat)
        "tpl" (FetchResult.resolved (ε := Unit) 500 "oops") = true :=
  (claim4_saveProps_reload
    ({ components := [], formValues := [] } : EditorState Nat) "tpl" rfl).1 500 "oops"

end Deco
